import Mathlib

/-!
# Verification of the local file-backed key-value store (`src/local-kv.ts`)

This file gives a shallow embedding of `LocalKVStorage` from `local-kv.ts`
and proves properties of its `get` / `put` / `delete` / `list` operations,
its lazy expiry eviction (`cleanupExpired`), and its disk persistence
(`loadFromDisk` / `saveToDisk`).

Modelling conventions:
* JS `Map<string, {value: string; expiry?: number}>` is embedded as an
  association list `List (String × Entry)` in insertion order.  `Map.get`
  finds the first matching key, `Map.set` replaces the first occurrence in
  place (appending when absent), `Map.delete` removes the occurrence — JS
  maps keep at most one entry per key, which here is the `nodupKeys`
  invariant.
* Timestamps (`Date.now()` and `expiry`) are integers (milliseconds), the
  `expirationTtl` option an integer number of seconds wrapped in `Option`
  (`none` = option absent/undefined).  JS truthiness of numbers
  (`0` is falsy) is made explicit wherever the source relies on it.
* The backing file is modelled by `DiskFile`: absent, or present with
  content that either parses as a JSON object of entries or is malformed
  (in which case `JSON.parse` throws, modelled by `Except`).  A successful
  `fs.writeFileSync` of `JSON.stringify(Object.fromEntries(map))` is
  `DiskFile.present (FileContent.jsonMap data)`.
* `TextEncoder` / `TextDecoder` (UTF-8, non-fatal replacement mode, as in
  the WHATWG encoding standard used by Node) are embedded over `List Nat`
  byte lists, see `utf8EncodeChar` and `utf8DecodeStep` below.
-/

namespace LocalKV

/-- One stored record `{ value: string; expiry?: number }`. -/
structure Entry where
  value : String
  expiry : Option Int
deriving DecidableEq

/-- Content of the backing file when it exists: either a JSON object that
parses to a map of entries, or malformed content on which `JSON.parse`
throws. -/
inductive FileContent where
  | jsonMap (entries : List (String × Entry))
  | malformedJson
deriving DecidableEq

/-- The backing file at the storage path: absent or present with content. -/
inductive DiskFile where
  | absent
  | present (c : FileContent)
deriving DecidableEq

/-- The full state of one `LocalKVStorage` instance: the in-memory map
`this.data` and the backing file at `this.storagePath`. -/
structure KVState where
  data : List (String × Entry)
  disk : DiskFile
deriving DecidableEq

/-- `JSON.parse` on the file content (only called when the file exists):
a malformed file throws, a well-formed one yields the entries. -/
def jsonParseEntries : FileContent → Except Unit (List (String × Entry))
  | .jsonMap m => .ok m
  | .malformedJson => .error ()

/-- `loadFromDisk`: if the file exists, parse it into the map; a parse
failure is caught (warning logged) and leaves the map empty; an absent
file leaves the initial empty map. -/
def loadFromDisk : DiskFile → List (String × Entry)
  | .absent => []
  | .present c =>
    match jsonParseEntries c with
    | .ok m => m
    | .error _ => []

/-- The constructor `new LocalKVStorage(path)`: load state from disk. -/
def initStore (d : DiskFile) : KVState :=
  { data := loadFromDisk d, disk := d }

/-- `Map.prototype.get`: first entry with the given key. -/
def lookupKey : List (String × Entry) → String → Option Entry
  | [], _ => none
  | (k', e) :: rest, k => if k' = k then some e else lookupKey rest k

/-- `Map.prototype.set`: replace the entry for the key in place, or append
a new one. -/
def setKey : List (String × Entry) → String → Entry → List (String × Entry)
  | [], k, e => [(k, e)]
  | (k', e') :: rest, k, e =>
    if k' = k then (k, e) :: rest else (k', e') :: setKey rest k e

/-- `Map.prototype.delete`: remove the entry with the given key. -/
def eraseKey : List (String × Entry) → String → List (String × Entry)
  | [], _ => []
  | (k', e') :: rest, k =>
    if k' = k then rest else (k', e') :: eraseKey rest k

/-- The eviction test `item.expiry && item.expiry < now` from
`cleanupExpired`: an absent expiry is falsy, and so is the number `0`. -/
def isExpiredCode (now : Int) (e : Entry) : Bool :=
  match e.expiry with
  | none => false
  | some t => decide (t ≠ 0) && decide (t < now)

/-- `cleanupExpired`: delete every entry whose `expiry` is truthy and in
the past; if at least one entry was deleted, save the map to disk. -/
def cleanupExpired (now : Int) (st : KVState) : KVState :=
  let hasExpired := st.data.any (fun p => isExpiredCode now p.2)
  let data' := st.data.filter (fun p => ! isExpiredCode now p.2)
  if hasExpired then
    { data := data', disk := .present (.jsonMap data') }
  else
    { data := data', disk := st.disk }

/-- `get(key)` up to the `switch`: run `cleanupExpired`, then read the
entry from the map (`null` when absent).  The returned pair is the result
together with the mutated store state. -/
def get (now : Int) (key : String) (st : KVState) : Option Entry × KVState :=
  let st' := cleanupExpired now st
  (lookupKey st'.data key, st')

/-- `get(key)` in the default / `"text"` format: the stored string. -/
def getText (now : Int) (key : String) (st : KVState) : Option String × KVState :=
  let r := get now key st
  (r.1.map Entry.value, r.2)

/-- `put(key, value, options)` for a string value: compute
`options?.expirationTtl ? Date.now() + ttl * 1000 : undefined` (so a
`ttl` of `0` is falsy and yields no expiry), set the entry, and save the
full map to disk. -/
def put (now : Int) (key value : String) (ttl : Option Int) (st : KVState) : KVState :=
  let expiry : Option Int :=
    match ttl with
    | some t => if t = 0 then none else some (now + t * 1000)
    | none => none
  let data' := setKey st.data key { value := value, expiry := expiry }
  { data := data', disk := .present (.jsonMap data') }

/-- `delete(key)`: remove the entry from the map (no error when absent)
and save the full map to disk. -/
def deleteKey (key : String) (st : KVState) : KVState :=
  let data' := eraseKey st.data key
  { data := data', disk := .present (.jsonMap data') }

/-- JS `key.startsWith(p)` for string arguments. -/
def strStartsWith (s p : String) : Bool :=
  p.data.isPrefixOf s.data

/-- The `{ name }` wrapper around each listed key. -/
structure KeyName where
  name : String
deriving DecidableEq

/-- `list(prefix?)` as implemented (`prefix?: string`): run
`cleanupExpired`, then keep the keys passing
`!prefix || key.startsWith(prefix)` — an undefined argument and the empty
string are both falsy, disabling the filter. -/
def list (now : Int) (pfx : Option String) (st : KVState) : List KeyName × KVState :=
  let st' := cleanupExpired now st
  let keys := (st'.data.map Prod.fst).filter (fun k =>
    match pfx with
    | none => true
    | some p => decide (p = "") || strStartsWith k p)
  (keys.map KeyName.mk, st')

/-- The keys of the map have no duplicates — the invariant a JS `Map`
maintains by construction. -/
def nodupKeys (l : List (String × Entry)) : Prop :=
  (l.map Prod.fst).Nodup

instance (l : List (String × Entry)) : Decidable (nodupKeys l) :=
  inferInstanceAs (Decidable (List.Nodup _))

/-! ## The operation alphabet and the disk-synchronisation invariant -/

/-- One call to the public API of a `LocalKVStorage` instance, with the
`Date.now()` reading the call observes. -/
inductive KVOp where
  | putOp (now : Int) (k v : String) (ttl : Option Int)
  | deleteOp (k : String)
  | getOp (now : Int) (k : String)
  | listOp (now : Int) (pfx : Option String)

/-- State effect of one API call. -/
def applyOp : KVOp → KVState → KVState
  | .putOp now k v ttl, st => put now k v ttl st
  | .deleteOp k, st => deleteKey k st
  | .getOp now k, st => (get now k st).2
  | .listOp now p, st => (list now p st).2

/-- State after a sequence of API calls. -/
def execOps : List KVOp → KVState → KVState
  | [], st => st
  | op :: ops, st => execOps ops (applyOp op st)

/-- The backing file parses back to exactly the in-memory map. -/
def diskMatches (st : KVState) : Prop :=
  loadFromDisk st.disk = st.data

/-! ## UTF-8: `TextEncoder` and `TextDecoder`

`put` decodes an `ArrayBuffer` argument with `new TextDecoder().decode`
(UTF-8, non-fatal: malformed input becomes U+FFFD) and
`get(key, "arrayBuffer")` encodes the stored string with
`new TextEncoder().encode`.  Both are embedded here over byte lists
(`List Nat`), following the WHATWG encoding standard they implement. -/

/-- U+FFFD REPLACEMENT CHARACTER, emitted by the non-fatal decoder. -/
def replacementChar : Char := ⟨0xFFFD, by decide⟩

/-- `TextEncoder` on a single unicode scalar value: its UTF-8 bytes. -/
def utf8EncodeChar (c : Char) : List Nat :=
  let v := c.toNat
  if v < 0x80 then
    [v]
  else if v < 0x800 then
    [0xC0 + v / 0x40, 0x80 + v % 0x40]
  else if v < 0x10000 then
    [0xE0 + v / 0x1000, 0x80 + v / 0x40 % 0x40, 0x80 + v % 0x40]
  else
    [0xF0 + v / 0x40000, 0x80 + v / 0x1000 % 0x40, 0x80 + v / 0x40 % 0x40, 0x80 + v % 0x40]

/-- `TextEncoder.encode` over a character sequence. -/
def utf8Encode : List Char → List Nat
  | [] => []
  | c :: cs => utf8EncodeChar c ++ utf8Encode cs

/-- `new TextEncoder().encode(s)` as a byte list. -/
def utf8EncodeStr (s : String) : List Nat :=
  utf8Encode s.data

/-- One step of the WHATWG UTF-8 decoder in non-fatal (replacement) mode:
from the lead byte `b` and the remaining bytes `bs`, produce the decoded
scalar (or U+FFFD on error) and the number of bytes of `bs` consumed
beyond the lead byte.  On a malformed continuation byte the maximal valid
subpart is consumed, one U+FFFD is emitted, and the offending byte is left
to be reprocessed — exactly the standard's "restore byte to stream"
behaviour.  The `0xE0`/`0xED` and `0xF0`/`0xF4` special lower/upper
boundaries of the standard are included. -/
def utf8DecodeStep (b : Nat) (bs : List Nat) : Char × Nat :=
  if b < 0x80 then
    (Char.ofNat b, 0)
  else if 0xC2 ≤ b ∧ b ≤ 0xDF then
    match bs with
    | b1 :: _ =>
      if 0x80 ≤ b1 ∧ b1 ≤ 0xBF then
        (Char.ofNat ((b - 0xC0) * 0x40 + (b1 - 0x80)), 1)
      else (replacementChar, 0)
    | [] => (replacementChar, 0)
  else if 0xE0 ≤ b ∧ b ≤ 0xEF then
    match bs with
    | b1 :: rest1 =>
      if (if b = 0xE0 then 0xA0 else 0x80) ≤ b1 ∧ b1 ≤ (if b = 0xED then 0x9F else 0xBF) then
        match rest1 with
        | b2 :: _ =>
          if 0x80 ≤ b2 ∧ b2 ≤ 0xBF then
            (Char.ofNat ((b - 0xE0) * 0x1000 + (b1 - 0x80) * 0x40 + (b2 - 0x80)), 2)
          else (replacementChar, 1)
        | [] => (replacementChar, 1)
      else (replacementChar, 0)
    | [] => (replacementChar, 0)
  else if 0xF0 ≤ b ∧ b ≤ 0xF4 then
    match bs with
    | b1 :: rest1 =>
      if (if b = 0xF0 then 0x90 else 0x80) ≤ b1 ∧ b1 ≤ (if b = 0xF4 then 0x8F else 0xBF) then
        match rest1 with
        | b2 :: rest2 =>
          if 0x80 ≤ b2 ∧ b2 ≤ 0xBF then
            match rest2 with
            | b3 :: _ =>
              if 0x80 ≤ b3 ∧ b3 ≤ 0xBF then
                (Char.ofNat ((b - 0xF0) * 0x40000 + (b1 - 0x80) * 0x1000
                  + (b2 - 0x80) * 0x40 + (b3 - 0x80)), 3)
              else (replacementChar, 2)
            | [] => (replacementChar, 2)
          else (replacementChar, 1)
        | [] => (replacementChar, 1)
      else (replacementChar, 0)
    | [] => (replacementChar, 0)
  else
    (replacementChar, 0)

/-- `new TextDecoder().decode` (UTF-8, non-fatal) over a byte list. -/
def utf8DecodeChars : List Nat → List Char
  | [] => []
  | b :: bs =>
    (utf8DecodeStep b bs).1 :: utf8DecodeChars (bs.drop (utf8DecodeStep b bs).2)
termination_by l => l.length
decreasing_by
  simp only [List.length_drop, List.length_cons]
  omega

/-- `new TextDecoder().decode(buf)` as a string. -/
def utf8DecodeStr (bs : List Nat) : String :=
  { data := utf8DecodeChars bs }

/-- `put(key, value, options)` when `value` is an `ArrayBuffer`: the
bytes are decoded to a string first. -/
def putBuf (now : Int) (key : String) (buf : List Nat) (ttl : Option Int) (st : KVState) :
    KVState :=
  put now key (utf8DecodeStr buf) ttl st

/-- `get(key, "arrayBuffer")`: the UTF-8 bytes of the stored string
(`null` when the key is absent). -/
def getArrayBuffer (now : Int) (key : String) (st : KVState) :
    Option (List Nat) × KVState :=
  let r := get now key st
  (r.1.map (fun e => utf8EncodeStr e.value), r.2)

/-! ## The `KVNamespace` interface view of `list` -/

/-- The argument object of `KVNamespace.list(options?: { prefix?: string })`;
the field is spelled `pfx` here. -/
structure ListOptions where
  pfx : Option String
deriving DecidableEq

/-- `list` as invoked through the `KVNamespace` interface, to which
`loadNodeEnv` casts the store.  The interface declares
`list(options?: { prefix?: string })`, while the implementation's
signature is `list(prefix?: string)`: a caller passing an options object
hands that object to the implementation's string parameter.  The object
is truthy, so the filter runs, and `String.prototype.startsWith` coerces
its argument with the default `Object.prototype.toString`, producing the
string `"[object Object]"`. -/
def listViaNamespace (now : Int) (options : Option ListOptions) (st : KVState) :
    List KeyName × KVState :=
  match options with
  | none => list now none st
  | some _ => list now (some "[object Object]") st

/-- Follows the spec's words (§4 `list` and §6 consumed contract): after
eviction, return exactly the keys whose string value starts with the
requested prefix (all keys when no prefix is given), each wrapped as a
named-key descriptor. -/
def listSpec (now : Int) (options : Option ListOptions) (st : KVState) : List KeyName :=
  (((cleanupExpired now st).data.map Prod.fst).filter (fun k =>
    match options with
    | some o =>
      match o.pfx with
      | some p => strStartsWith k p
      | none => true
    | none => true)).map KeyName.mk

/-! ## Association-list lemmas -/

theorem cleanupExpired_data (now : Int) (st : KVState) :
    (cleanupExpired now st).data = st.data.filter (fun p => ! isExpiredCode now p.2) := by
  simp only [cleanupExpired]
  split <;> rfl

theorem lookupKey_setKey_self (l : List (String × Entry)) (k : String) (e : Entry) :
    lookupKey (setKey l k e) k = some e := by
  induction l with
  | nil => simp [setKey, lookupKey]
  | cons hd tl ih =>
    obtain ⟨k', e'⟩ := hd
    by_cases h : k' = k
    · simp [setKey, h, lookupKey]
    · simp [setKey, h, lookupKey, ih]

theorem lookupKey_mem {l : List (String × Entry)} {k : String} {e : Entry}
    (h : lookupKey l k = some e) : (k, e) ∈ l := by
  induction l with
  | nil => simp [lookupKey] at h
  | cons hd tl ih =>
    obtain ⟨k', e'⟩ := hd
    by_cases hk : k' = k
    · subst hk
      simp [lookupKey] at h
      simp [h]
    · simp [lookupKey, hk] at h
      exact List.mem_cons_of_mem _ (ih h)

theorem lookupKey_filter_pos {l : List (String × Entry)} {k : String} {e : Entry}
    (p : String × Entry → Bool)
    (h : lookupKey l k = some e) (hp : p (k, e) = true) :
    lookupKey (l.filter p) k = some e := by
  induction l with
  | nil => simp [lookupKey] at h
  | cons hd tl ih =>
    obtain ⟨k', e'⟩ := hd
    by_cases hk : k' = k
    · subst hk
      simp [lookupKey] at h
      subst h
      simp [List.filter_cons, hp, lookupKey]
    · simp [lookupKey, hk] at h
      by_cases hph : p (k', e') = true
      · simp [List.filter_cons, hph, lookupKey, hk, ih h]
      · simp [List.filter_cons, hph, ih h]

theorem lookupKey_filter_none {l : List (String × Entry)} {k : String}
    (p : String × Entry → Bool) (h : lookupKey l k = none) :
    lookupKey (l.filter p) k = none := by
  induction l with
  | nil => simp [lookupKey]
  | cons hd tl ih =>
    obtain ⟨k', e'⟩ := hd
    by_cases hk : k' = k
    · simp [lookupKey, hk] at h
    · simp [lookupKey, hk] at h
      by_cases hph : p (k', e') = true
      · simp [List.filter_cons, hph, lookupKey, hk, ih h]
      · simp [List.filter_cons, hph, ih h]

theorem lookupKey_eq_none_of_not_mem {l : List (String × Entry)} {k : String}
    (h : k ∉ l.map Prod.fst) : lookupKey l k = none := by
  induction l with
  | nil => simp [lookupKey]
  | cons hd tl ih =>
    obtain ⟨k', e'⟩ := hd
    rw [List.map_cons, List.mem_cons] at h
    push_neg at h
    have hk : ¬ k' = k := fun he => h.1 he.symm
    simp only [lookupKey, if_neg hk]
    exact ih h.2

theorem lookupKey_filter_neg {l : List (String × Entry)} {k : String} {e : Entry}
    (p : String × Entry → Bool) (hn : nodupKeys l)
    (h : lookupKey l k = some e) (hp : p (k, e) = false) :
    lookupKey (l.filter p) k = none := by
  induction l with
  | nil => simp [lookupKey] at h
  | cons hd tl ih =>
    obtain ⟨k', e'⟩ := hd
    unfold nodupKeys at hn
    rw [List.map_cons, List.nodup_cons] at hn
    by_cases hk : k' = k
    · subst hk
      simp [lookupKey] at h
      subst h
      simp [List.filter_cons, hp]
      exact lookupKey_filter_none p (lookupKey_eq_none_of_not_mem hn.1)
    · simp only [lookupKey, if_neg hk] at h
      by_cases hph : p (k', e') = true
      · simp only [List.filter_cons, hph, if_true, lookupKey, if_neg hk]
        exact ih hn.2 h
      · simp only [List.filter_cons, hph, if_false, Bool.false_eq_true]
        exact ih hn.2 h

theorem lookupKey_eraseKey_self {l : List (String × Entry)} {k : String}
    (hn : nodupKeys l) : lookupKey (eraseKey l k) k = none := by
  induction l with
  | nil => simp [eraseKey, lookupKey]
  | cons hd tl ih =>
    obtain ⟨k', e'⟩ := hd
    unfold nodupKeys at hn
    rw [List.map_cons, List.nodup_cons] at hn
    by_cases hk : k' = k
    · subst hk
      simp only [eraseKey, if_pos rfl]
      exact lookupKey_eq_none_of_not_mem hn.1
    · simp only [eraseKey, if_neg hk, lookupKey, if_neg hk]
      exact ih hn.2

theorem eraseKey_of_lookup_none {l : List (String × Entry)} {k : String}
    (h : lookupKey l k = none) : eraseKey l k = l := by
  induction l with
  | nil => rfl
  | cons hd tl ih =>
    obtain ⟨k', e'⟩ := hd
    by_cases hk : k' = k
    · simp [lookupKey, hk] at h
    · simp [lookupKey, hk] at h
      simp [eraseKey, hk, ih h]

theorem mem_map_fst_setKey {x : String} {l : List (String × Entry)} {k : String} {e : Entry}
    (h : x ∈ (setKey l k e).map Prod.fst) : x = k ∨ x ∈ l.map Prod.fst := by
  induction l with
  | nil =>
    rw [setKey] at h
    simp at h
    exact Or.inl h
  | cons hd tl ih =>
    obtain ⟨k', e'⟩ := hd
    by_cases hk : k' = k
    · simp only [setKey, if_pos hk, List.map_cons, List.mem_cons] at h
      rcases h with h | h
      · exact Or.inl h
      · exact Or.inr (by rw [List.map_cons, List.mem_cons]; exact Or.inr h)
    · simp only [setKey, if_neg hk, List.map_cons, List.mem_cons] at h
      rcases h with h | h
      · exact Or.inr (by rw [List.map_cons, List.mem_cons]; exact Or.inl h)
      · rcases ih h with h' | h'
        · exact Or.inl h'
        · exact Or.inr (by rw [List.map_cons, List.mem_cons]; exact Or.inr h')

theorem nodupKeys_setKey (l : List (String × Entry)) (k : String) (e : Entry)
    (hn : nodupKeys l) : nodupKeys (setKey l k e) := by
  induction l with
  | nil => simp [setKey, nodupKeys]
  | cons hd tl ih =>
    obtain ⟨k', e'⟩ := hd
    unfold nodupKeys at hn ⊢
    rw [List.map_cons, List.nodup_cons] at hn
    by_cases hk : k' = k
    · subst hk
      rw [setKey, if_pos rfl, List.map_cons, List.nodup_cons]
      exact hn
    · have htl : nodupKeys (setKey tl k e) := ih hn.2
      rw [setKey, if_neg hk, List.map_cons, List.nodup_cons]
      refine ⟨fun hx => ?_, htl⟩
      rcases mem_map_fst_setKey hx with h' | h'
      · exact hk h'
      · exact hn.1 h'

theorem nodupKeys_filter (l : List (String × Entry)) (p : String × Entry → Bool)
    (hn : nodupKeys l) : nodupKeys (l.filter p) :=
  List.Nodup.sublist (List.Sublist.map Prod.fst (List.filter_sublist l)) hn

theorem filter_not_any_eq_self {l : List (String × Entry)} {f : String × Entry → Bool}
    (h : l.any f = false) : l.filter (fun x => ! f x) = l := by
  rw [List.filter_eq_self]
  intro a ha
  simp [List.any_eq_false.mp h a ha]

/-! ## Characterizations of the store operations -/

theorem get_fst (now : Int) (k : String) (st : KVState) :
    (get now k st).1 = lookupKey (st.data.filter (fun p => ! isExpiredCode now p.2)) k := by
  show lookupKey (cleanupExpired now st).data k = _
  rw [cleanupExpired_data]

theorem getText_fst (now : Int) (k : String) (st : KVState) :
    (getText now k st).1 =
      (lookupKey (st.data.filter (fun p => ! isExpiredCode now p.2)) k).map Entry.value := by
  show (lookupKey (cleanupExpired now st).data k).map Entry.value = _
  rw [cleanupExpired_data]

theorem getText_some_of_lookup {now : Int} {k : String} {st : KVState} {e : Entry}
    (hl : lookupKey st.data k = some e) (hne : isExpiredCode now e = false) :
    (getText now k st).1 = some e.value := by
  rw [getText_fst, lookupKey_filter_pos _ hl (by simp [hne])]
  rfl

theorem getText_none_of_lookup_none {now : Int} {k : String} {st : KVState}
    (hl : lookupKey st.data k = none) : (getText now k st).1 = none := by
  rw [getText_fst, lookupKey_filter_none _ hl]
  rfl

theorem getText_none_of_expired {now : Int} {k : String} {st : KVState} {e : Entry}
    (hn : nodupKeys st.data) (hl : lookupKey st.data k = some e)
    (hex : isExpiredCode now e = true) : (getText now k st).1 = none := by
  rw [getText_fst, lookupKey_filter_neg _ hn hl (by simp [hex])]
  rfl

theorem getArrayBuffer_fst (now : Int) (k : String) (st : KVState) :
    (getArrayBuffer now k st).1 =
      (lookupKey (st.data.filter (fun p => ! isExpiredCode now p.2)) k).map
        (fun e => utf8EncodeStr e.value) := by
  show (lookupKey (cleanupExpired now st).data k).map (fun e => utf8EncodeStr e.value) = _
  rw [cleanupExpired_data]

theorem getText_put_none (st : KVState) (k v : String) (nowP nowG : Int) :
    (getText nowG k (put nowP k v none st)).1 = some v :=
  getText_some_of_lookup
    (lookupKey_setKey_self st.data k { value := v, expiry := none })
    (by simp [isExpiredCode])

theorem diskMatches_initStore (d : DiskFile) : diskMatches (initStore d) := rfl

theorem diskMatches_cleanupExpired (now : Int) (st : KVState) (h : diskMatches st) :
    diskMatches (cleanupExpired now st) := by
  unfold diskMatches at h ⊢
  simp only [cleanupExpired]
  split
  · rfl
  next hex =>
    rw [filter_not_any_eq_self (Bool.eq_false_iff.mpr hex)]
    exact h

theorem diskMatches_applyOp (op : KVOp) (st : KVState) (h : diskMatches st) :
    diskMatches (applyOp op st) := by
  cases op with
  | putOp now k v ttl => rfl
  | deleteOp k => rfl
  | getOp now k => exact diskMatches_cleanupExpired now st h
  | listOp now p => exact diskMatches_cleanupExpired now st h

theorem diskMatches_execOps (ops : List KVOp) (st : KVState) (h : diskMatches st) :
    diskMatches (execOps ops st) := by
  induction ops generalizing st with
  | nil => exact h
  | cons op ops ih => exact ih (applyOp op st) (diskMatches_applyOp op st h)

/-! ## UTF-8 round-trip lemmas -/

theorem utf8DecodeChars_nil : utf8DecodeChars [] = [] := by
  simp only [utf8DecodeChars]

theorem utf8DecodeChars_cons (b : Nat) (bs : List Nat) :
    utf8DecodeChars (b :: bs) =
      (utf8DecodeStep b bs).1 :: utf8DecodeChars (bs.drop (utf8DecodeStep b bs).2) := by
  simp only [utf8DecodeChars]

theorem utf8DecodeChars_encodeChar (c : Char) (bs : List Nat) :
    utf8DecodeChars (utf8EncodeChar c ++ bs) = c :: utf8DecodeChars bs := by
  have hv : c.toNat < 0xd800 ∨ (0xdfff < c.toNat ∧ c.toNat < 0x110000) := c.valid
  by_cases h1 : c.toNat < 0x80
  · have he : utf8EncodeChar c = [c.toNat] := by
      simp only [utf8EncodeChar]
      rw [if_pos h1]
    rw [he, List.singleton_append, utf8DecodeChars_cons]
    have hstep : utf8DecodeStep c.toNat bs = (Char.ofNat c.toNat, 0) := by
      simp only [utf8DecodeStep]
      rw [if_pos h1]
    rw [hstep, Char.ofNat_toNat]
    simp
  · by_cases h2 : c.toNat < 0x800
    · have he : utf8EncodeChar c = [0xC0 + c.toNat / 0x40, 0x80 + c.toNat % 0x40] := by
        simp only [utf8EncodeChar]
        rw [if_neg h1, if_pos h2]
      rw [he]
      simp only [List.cons_append, List.nil_append]
      rw [utf8DecodeChars_cons]
      have hstep : utf8DecodeStep (0xC0 + c.toNat / 0x40) ((0x80 + c.toNat % 0x40) :: bs) =
          (Char.ofNat ((0xC0 + c.toNat / 0x40 - 0xC0) * 0x40
            + (0x80 + c.toNat % 0x40 - 0x80)), 1) := by
        simp only [utf8DecodeStep]
        rw [if_neg (by omega), if_pos (by omega), if_pos (by omega)]
      rw [hstep]
      have hval : (0xC0 + c.toNat / 0x40 - 0xC0) * 0x40 + (0x80 + c.toNat % 0x40 - 0x80)
          = c.toNat := by omega
      rw [hval, Char.ofNat_toNat]
      simp
    · by_cases h3 : c.toNat < 0x10000
      · have he : utf8EncodeChar c =
            [0xE0 + c.toNat / 0x1000, 0x80 + c.toNat / 0x40 % 0x40, 0x80 + c.toNat % 0x40] := by
          simp only [utf8EncodeChar]
          rw [if_neg h1, if_neg h2, if_pos h3]
        rw [he]
        simp only [List.cons_append, List.nil_append]
        rw [utf8DecodeChars_cons]
        have hb1 : (if (0xE0 + c.toNat / 0x1000) = 0xE0 then 0xA0 else 0x80)
              ≤ 0x80 + c.toNat / 0x40 % 0x40 ∧
            0x80 + c.toNat / 0x40 % 0x40
              ≤ (if (0xE0 + c.toNat / 0x1000) = 0xED then 0x9F else 0xBF) := by
          constructor <;> split <;> omega
        have hstep : utf8DecodeStep (0xE0 + c.toNat / 0x1000)
            ((0x80 + c.toNat / 0x40 % 0x40) :: (0x80 + c.toNat % 0x40) :: bs) =
            (Char.ofNat ((0xE0 + c.toNat / 0x1000 - 0xE0) * 0x1000
              + (0x80 + c.toNat / 0x40 % 0x40 - 0x80) * 0x40
              + (0x80 + c.toNat % 0x40 - 0x80)), 2) := by
          simp only [utf8DecodeStep]
          rw [if_neg (by omega), if_neg (by omega), if_pos (by omega), if_pos hb1,
            if_pos (by omega)]
        rw [hstep]
        have hval : (0xE0 + c.toNat / 0x1000 - 0xE0) * 0x1000
            + (0x80 + c.toNat / 0x40 % 0x40 - 0x80) * 0x40
            + (0x80 + c.toNat % 0x40 - 0x80) = c.toNat := by omega
        rw [hval, Char.ofNat_toNat]
        simp
      · have h4 : c.toNat < 0x110000 := by omega
        have he : utf8EncodeChar c =
            [0xF0 + c.toNat / 0x40000, 0x80 + c.toNat / 0x1000 % 0x40,
              0x80 + c.toNat / 0x40 % 0x40, 0x80 + c.toNat % 0x40] := by
          simp only [utf8EncodeChar]
          rw [if_neg h1, if_neg h2, if_neg h3]
        rw [he]
        simp only [List.cons_append, List.nil_append]
        rw [utf8DecodeChars_cons]
        have hb1 : (if (0xF0 + c.toNat / 0x40000) = 0xF0 then 0x90 else 0x80)
              ≤ 0x80 + c.toNat / 0x1000 % 0x40 ∧
            0x80 + c.toNat / 0x1000 % 0x40
              ≤ (if (0xF0 + c.toNat / 0x40000) = 0xF4 then 0x8F else 0xBF) := by
          constructor <;> split <;> omega
        have hstep : utf8DecodeStep (0xF0 + c.toNat / 0x40000)
            ((0x80 + c.toNat / 0x1000 % 0x40) :: (0x80 + c.toNat / 0x40 % 0x40)
              :: (0x80 + c.toNat % 0x40) :: bs) =
            (Char.ofNat ((0xF0 + c.toNat / 0x40000 - 0xF0) * 0x40000
              + (0x80 + c.toNat / 0x1000 % 0x40 - 0x80) * 0x1000
              + (0x80 + c.toNat / 0x40 % 0x40 - 0x80) * 0x40
              + (0x80 + c.toNat % 0x40 - 0x80)), 3) := by
          simp only [utf8DecodeStep]
          rw [if_neg (by omega), if_neg (by omega), if_neg (by omega), if_pos (by omega),
            if_pos hb1, if_pos (by omega), if_pos (by omega)]
        rw [hstep]
        have hval : (0xF0 + c.toNat / 0x40000 - 0xF0) * 0x40000
            + (0x80 + c.toNat / 0x1000 % 0x40 - 0x80) * 0x1000
            + (0x80 + c.toNat / 0x40 % 0x40 - 0x80) * 0x40
            + (0x80 + c.toNat % 0x40 - 0x80) = c.toNat := by omega
        rw [hval, Char.ofNat_toNat]
        simp

theorem utf8DecodeChars_utf8Encode (l : List Char) : utf8DecodeChars (utf8Encode l) = l := by
  induction l with
  | nil => exact utf8DecodeChars_nil
  | cons c cs ih =>
    show utf8DecodeChars (utf8EncodeChar c ++ utf8Encode cs) = c :: cs
    rw [utf8DecodeChars_encodeChar, ih]

theorem utf8DecodeStr_utf8EncodeStr (s : String) : utf8DecodeStr (utf8EncodeStr s) = s := by
  show String.mk (utf8DecodeChars (utf8Encode s.data)) = s
  rw [utf8DecodeChars_utf8Encode]

/-! ## Claims -/

/-- C1: For every key `k` and every string value `v`, calling `put(k, v)`
with no TTL option and then `get(k)` in the default (text) format returns
`v` — at the time of the `put` and at any later (indeed any) clock
reading, since the entry is stored without expiry. -/
theorem put_noTTL_then_get_returns_value (st : KVState) (k v : String) (nowP nowG : Int) :
    (getText nowG k (put nowP k v none st)).1 = some v :=
  getText_put_none st k v nowP nowG

/-- C7: For every key `k`, `delete(k)` followed by `get(k)` returns
"not found" (`null`), whether or not `k` was present; and deleting an
absent key leaves the in-memory mapping unchanged (idempotent no-op on
the mapping). -/
theorem delete_then_get_none_and_idempotent (st : KVState) (k : String) (nowG : Int)
    (hnd : nodupKeys st.data) :
    (getText nowG k (deleteKey k st)).1 = none ∧
      (lookupKey st.data k = none → (deleteKey k st).data = st.data) := by
  constructor
  · exact getText_none_of_lookup_none (lookupKey_eraseKey_self hnd)
  · intro habs
    exact eraseKey_of_lookup_none habs

theorem delete_then_get_none_and_idempotent_witness :
    nodupKeys (put 0 "x" "v" none (initStore DiskFile.absent)).data ∧
    lookupKey (put 0 "x" "v" none (initStore DiskFile.absent)).data "a" = none ∧
    (getText 0 "a" (deleteKey "a" (put 0 "x" "v" none (initStore DiskFile.absent)))).1 = none ∧
    (deleteKey "a" (put 0 "x" "v" none (initStore DiskFile.absent))).data =
      (put 0 "x" "v" none (initStore DiskFile.absent)).data :=
  ⟨by decide, by decide,
    (delete_then_get_none_and_idempotent (put 0 "x" "v" none (initStore DiskFile.absent))
      "a" 0 (by decide)).1,
    (delete_then_get_none_and_idempotent (put 0 "x" "v" none (initStore DiskFile.absent))
      "a" 0 (by decide)).2 (by decide)⟩

/-- C8: Construction never fails because of the backing file's content:
with the file absent the store starts with an empty mapping; with a file
that is not valid JSON the parse error is absorbed (`JSON.parse` throws,
the catch logs a warning) and the store starts with an empty mapping,
remaining fully usable (a `put` followed by a `get` still works). -/
theorem construction_absorbs_bad_file :
    (initStore DiskFile.absent).data = [] ∧
    (initStore (DiskFile.present FileContent.malformedJson)).data = [] ∧
    jsonParseEntries FileContent.malformedJson = Except.error () ∧
    (∀ (k v : String) (nowP nowG : Int),
      (getText nowG k
        (put nowP k v none (initStore (DiskFile.present FileContent.malformedJson)))).1 =
          some v) :=
  ⟨rfl, rfl, rfl, fun k v nowP nowG =>
    getText_put_none (initStore (DiskFile.present FileContent.malformedJson)) k v nowP nowG⟩

/-- C9: After any sequence of API calls starting from a freshly
constructed store, constructing a new store instance against the same
backing file restores exactly the current mapping (hence every
non-expired entry written before the restart); in particular after
`put(k, v)` a fresh instance on the same path answers `get(k)` with `v`. -/
theorem restart_restores_entries :
    (∀ (d : DiskFile) (ops : List KVOp),
      (initStore (execOps ops (initStore d)).disk).data = (execOps ops (initStore d)).data) ∧
    (∀ (st : KVState) (k v : String) (nowP nowG : Int),
      (getText nowG k (initStore (put nowP k v none st).disk)).1 = some v) := by
  constructor
  · intro d ops
    exact diskMatches_execOps ops (initStore d) (diskMatches_initStore d)
  · intro st k v nowP nowG
    have hl : lookupKey (initStore (put nowP k v none st).disk).data k =
        some { value := v, expiry := none } :=
      lookupKey_setKey_self st.data k { value := v, expiry := none }
    exact getText_some_of_lookup hl (by simp [isExpiredCode])

/-- C3: For a positive TTL `t`, after `put(k, v, {expirationTtl: t})` at
clock `now₁` an immediate `get(k)` returns `v`, and a `get(k)` performed
once the equivalent of `t` seconds has elapsed (strictly more than
`t * 1000` milliseconds of clock, matching the strict comparison
`item.expiry < now`) returns "not found" (`null`). -/
theorem put_ttl_then_get_expires (st : KVState) (k v : String) (t now₁ now₂ : Int)
    (hnd : nodupKeys st.data) (ht : 0 < t) (hnow : 0 ≤ now₁)
    (helapsed : now₁ + t * 1000 < now₂) :
    (getText now₁ k (put now₁ k v (some t) st)).1 = some v ∧
    (getText now₂ k ((getText now₁ k (put now₁ k v (some t) st)).2)).1 = none := by
  have hne : t ≠ 0 := ne_of_gt ht
  have hdata : (put now₁ k v (some t) st).data =
      setKey st.data k { value := v, expiry := some (now₁ + t * 1000) } := by
    simp [put, hne]
  have hl : lookupKey (put now₁ k v (some t) st).data k =
      some { value := v, expiry := some (now₁ + t * 1000) } := by
    rw [hdata]
    exact lookupKey_setKey_self _ _ _
  have hexp₁ : isExpiredCode now₁ { value := v, expiry := some (now₁ + t * 1000) } = false := by
    simp only [isExpiredCode, Bool.and_eq_false_iff, decide_eq_false_iff_not]
    right
    omega
  refine ⟨getText_some_of_lookup hl hexp₁, ?_⟩
  have hst2 : (getText now₁ k (put now₁ k v (some t) st)).2 =
      cleanupExpired now₁ (put now₁ k v (some t) st) := rfl
  rw [hst2]
  have hl' : lookupKey (cleanupExpired now₁ (put now₁ k v (some t) st)).data k =
      some { value := v, expiry := some (now₁ + t * 1000) } := by
    rw [cleanupExpired_data]
    exact lookupKey_filter_pos _ hl (by simp [hexp₁])
  have hnd' : nodupKeys (cleanupExpired now₁ (put now₁ k v (some t) st)).data := by
    rw [cleanupExpired_data]
    apply nodupKeys_filter
    rw [hdata]
    exact nodupKeys_setKey _ _ _ hnd
  have hexp₂ : isExpiredCode now₂ { value := v, expiry := some (now₁ + t * 1000) } = true := by
    simp only [isExpiredCode, Bool.and_eq_true, decide_eq_true_eq]
    constructor <;> omega
  exact getText_none_of_expired hnd' hl' hexp₂

theorem put_ttl_then_get_expires_witness :
    nodupKeys (initStore DiskFile.absent).data ∧ ((0 : Int) < 1) ∧ ((0 : Int) ≤ 0) ∧
    ((0 : Int) + 1 * 1000 < 2000) ∧
    ((getText 0 "a" (put 0 "a" "1" (some 1) (initStore DiskFile.absent))).1 = some "1" ∧
      (getText 2000 "a"
        ((getText 0 "a" (put 0 "a" "1" (some 1) (initStore DiskFile.absent))).2)).1 = none) :=
  ⟨by decide, by decide, by decide, by decide,
    put_ttl_then_get_expires (initStore DiskFile.absent) "a" "1" 1 0 2000
      (by decide) (by decide) (by decide) (by decide)⟩

/-- Counterexample to C4 as stated: the state reached by
`put("k", "v", {expirationTtl: -1})` at clock 1000 holds an entry whose
`expiry` is the absolute timestamp `0`; at clock 5000 that timestamp has
passed, yet `get` still returns the entry, because the eviction test
`item.expiry && item.expiry < now` treats the expiry value `0` as falsy
and never evicts it. -/
theorem expired_entry_still_returned_cex :
    (get 5000 "k" (put 1000 "k" "v" (some (-1)) (initStore DiskFile.absent))).1 =
      some { value := "v", expiry := some 0 } ∧ (0 : Int) < 5000 := by
  constructor
  · decide
  · decide

/-- C4 (amended): in every store state and at every time, no `get` or
`list` returns — nor does the post-access mapping retain — an entry whose
`expiresAt` is set, nonzero, and strictly in the past (entries whose
stored expiry timestamp is exactly `0` are treated by the code as having
no expiry); and whenever the access scan detects at least one such
entry, the pruned mapping is persisted to disk as part of that same
access. -/
theorem eviction_never_returns_expired_amended (now : Int) (st : KVState) :
    ((cleanupExpired now st).data.all (fun q => ! isExpiredCode now q.2) = true) ∧
    (∀ (k : String) (e : Entry), (get now k st).1 = some e → isExpiredCode now e = false) ∧
    (st.data.any (fun q => isExpiredCode now q.2) = true →
      (cleanupExpired now st).disk =
        DiskFile.present (FileContent.jsonMap (cleanupExpired now st).data)) := by
  refine ⟨?_, ?_, ?_⟩
  · rw [cleanupExpired_data, List.all_eq_true]
    intro q hq
    exact (List.mem_filter.mp hq).2
  · intro k e hget
    rw [get_fst] at hget
    have hmem := lookupKey_mem hget
    have hp := (List.mem_filter.mp hmem).2
    simpa using hp
  · intro hany
    rw [cleanupExpired_data]
    simp only [cleanupExpired]
    rw [if_pos hany]

theorem eviction_never_returns_expired_amended_witness :
    ((get 100 "a" (put 0 "a" "x" none
        (put 0 "k" "v" (some (-5)) (initStore DiskFile.absent)))).1 =
      some { value := "x", expiry := none }) ∧
    (isExpiredCode 100 { value := "x", expiry := none } = false) ∧
    ((put 0 "a" "x" none (put 0 "k" "v" (some (-5)) (initStore DiskFile.absent))).data.any
        (fun q => isExpiredCode 100 q.2) = true) ∧
    ((cleanupExpired 100 (put 0 "a" "x" none
        (put 0 "k" "v" (some (-5)) (initStore DiskFile.absent)))).disk =
      DiskFile.present (FileContent.jsonMap
        (cleanupExpired 100 (put 0 "a" "x" none
          (put 0 "k" "v" (some (-5)) (initStore DiskFile.absent)))).data)) :=
  ⟨by decide,
    (eviction_never_returns_expired_amended 100
      (put 0 "a" "x" none (put 0 "k" "v" (some (-5)) (initStore DiskFile.absent)))).2.1
      "a" { value := "x", expiry := none } (by decide),
    by decide,
    (eviction_never_returns_expired_amended 100
      (put 0 "a" "x" none (put 0 "k" "v" (some (-5)) (initStore DiskFile.absent)))).2.2
      (by decide)⟩

/-- Counterexample to C10 as stated: `put("k", "v", {expirationTtl: -1})`
at clock 1000 computes the expiry `1000 + (-1) * 1000 = 0`, which the
eviction test treats as falsy, so a subsequent `get` at clock 2000
returns `"v"` instead of the claimed `null`. -/
theorem negative_ttl_zero_expiry_cex :
    (getText 2000 "k" (put 1000 "k" "v" (some (-1)) (initStore DiskFile.absent))).1 =
      some "v" := by
  decide

/-- C10 (amended): `put(k, v, {expirationTtl: 0})` stores an entry with
no expiry, returned by `get` at every clock reading; and
`put(k, v, {expirationTtl: t})` with negative `t` stores an entry whose
expiry `now + t * 1000` lies in the past, so — provided that computed
timestamp is not exactly `0`, in which case the code treats the entry as
never expiring — every `get(k)` at or after `now` evicts it and returns
`null`. -/
theorem zero_and_negative_ttl_amended (st : KVState) (k v : String) (now t : Int)
    (hnd : nodupKeys st.data) (ht : t < 0) (hzero : now + t * 1000 ≠ 0) :
    (lookupKey (put now k v (some 0) st).data k = some { value := v, expiry := none }) ∧
    (∀ m : Int, (getText m k (put now k v (some 0) st)).1 = some v) ∧
    (∀ m : Int, now ≤ m → (getText m k (put now k v (some t) st)).1 = none) := by
  have hdata0 : (put now k v (some 0) st).data =
      setKey st.data k { value := v, expiry := none } := by
    simp [put]
  refine ⟨?_, ?_, ?_⟩
  · rw [hdata0]
    exact lookupKey_setKey_self _ _ _
  · intro m
    have hl : lookupKey (put now k v (some 0) st).data k =
        some { value := v, expiry := none } := by
      rw [hdata0]
      exact lookupKey_setKey_self _ _ _
    exact getText_some_of_lookup hl (by simp [isExpiredCode])
  · intro m hm
    have hne : t ≠ 0 := ne_of_lt ht
    have hdata : (put now k v (some t) st).data =
        setKey st.data k { value := v, expiry := some (now + t * 1000) } := by
      simp [put, hne]
    have hl : lookupKey (put now k v (some t) st).data k =
        some { value := v, expiry := some (now + t * 1000) } := by
      rw [hdata]
      exact lookupKey_setKey_self _ _ _
    have hndP : nodupKeys (put now k v (some t) st).data := by
      rw [hdata]
      exact nodupKeys_setKey _ _ _ hnd
    have hexp : isExpiredCode m { value := v, expiry := some (now + t * 1000) } = true := by
      simp only [isExpiredCode, Bool.and_eq_true, decide_eq_true_eq]
      constructor <;> omega
    exact getText_none_of_expired hndP hl hexp

theorem zero_and_negative_ttl_amended_witness :
    nodupKeys (initStore DiskFile.absent).data ∧ ((-1 : Int) < 0) ∧
    ((0 : Int) + (-1) * 1000 ≠ 0) ∧
    (lookupKey (put 0 "k" "v" (some 0) (initStore DiskFile.absent)).data "k" =
      some { value := "v", expiry := none }) ∧
    ((getText 9 "k" (put 0 "k" "v" (some 0) (initStore DiskFile.absent))).1 = some "v") ∧
    ((getText 5 "k" (put 0 "k" "v" (some (-1)) (initStore DiskFile.absent))).1 = none) := by
  have h := zero_and_negative_ttl_amended (initStore DiskFile.absent) "k" "v" 0 (-1)
    (by decide) (by decide) (by decide)
  exact ⟨by decide, by decide, by decide, h.1, h.2.1 9, h.2.2 5 (by decide)⟩

/-- C6: For every prefix string `p`, `list(p)` returns exactly the keys
present after eviction whose string value starts with `p`, each wrapped
as a `{name}` descriptor; `list()` with no prefix returns exactly all
live keys.  (Membership is stated for the wrapped descriptors; the empty
prefix is falsy in the implementation's filter, which coincides with
"every key starts with the empty string".) -/
theorem list_returns_matching_keys (now : Int) (st : KVState) (p k : String) :
    ((KeyName.mk k ∈ (list now (some p) st).1) ↔
      (k ∈ (cleanupExpired now st).data.map Prod.fst ∧ strStartsWith k p = true)) ∧
    ((KeyName.mk k ∈ (list now none st).1) ↔
      k ∈ (cleanupExpired now st).data.map Prod.fst) := by
  constructor
  · simp only [list, List.mem_map, List.mem_filter]
    constructor
    · rintro ⟨a, ⟨hamem, haf⟩, hak⟩
      obtain rfl : a = k := congrArg KeyName.name hak
      refine ⟨hamem, ?_⟩
      by_cases hp : p = ""
      · subst hp
        simp [strStartsWith]
      · simpa [hp] using haf
    · rintro ⟨hmem, hsw⟩
      exact ⟨k, ⟨hmem, by simp [hsw]⟩, rfl⟩
  · simp only [list, List.mem_map, List.mem_filter]
    constructor
    · rintro ⟨a, ⟨hamem, _⟩, hak⟩
      obtain rfl : a = k := congrArg KeyName.name hak
      exact hamem
    · intro hmem
      exact ⟨k, ⟨hmem, trivial⟩, rfl⟩

/-- Counterexample to C2 as stated: the single byte `0xFF` is not valid
UTF-8, so `TextDecoder` decodes it to U+FFFD; `get(k, "arrayBuffer")`
then returns the UTF-8 encoding of U+FFFD, `[0xEF, 0xBF, 0xBD]`, which
is not byte-identical to the original buffer `[0xFF]`. -/
theorem arraybuffer_roundtrip_cex :
    (getArrayBuffer 0 "k" (putBuf 0 "k" [0xFF] none (initStore DiskFile.absent))).1 ≠
      some [0xFF] := by
  have hdec : utf8DecodeStr [0xFF] = String.mk [replacementChar] := by
    show String.mk (utf8DecodeChars [0xFF]) = String.mk [replacementChar]
    rw [utf8DecodeChars_cons]
    have hstep : utf8DecodeStep 0xFF [] = (replacementChar, 0) := by
      simp only [utf8DecodeStep]
      rw [if_neg (by omega), if_neg (by omega), if_neg (by omega), if_neg (by omega)]
    rw [hstep]
    simp [utf8DecodeChars_nil]
  show (getArrayBuffer 0 "k"
      (put 0 "k" (utf8DecodeStr [0xFF]) none (initStore DiskFile.absent))).1 ≠ some [0xFF]
  rw [hdec]
  decide

/-- C2 (amended): for every byte buffer that is the UTF-8 encoding of a
string — i.e. every buffer that is well-formed UTF-8 — `put(k, buffer)`
followed by `get(k, "arrayBuffer")` returns a buffer whose bytes are
identical to the original; the decode-then-re-encode pipeline through the
stored string is lossless exactly on such buffers. -/
theorem arraybuffer_roundtrip_amended (s : String) (k : String) (nowP nowG : Int)
    (st : KVState) :
    (getArrayBuffer nowG k (putBuf nowP k (utf8EncodeStr s) none st)).1 =
      some (utf8EncodeStr s) := by
  have hl : lookupKey (putBuf nowP k (utf8EncodeStr s) none st).data k =
      some { value := utf8DecodeStr (utf8EncodeStr s), expiry := none } :=
    lookupKey_setKey_self st.data k _
  rw [getArrayBuffer_fst, lookupKey_filter_pos _ hl (by simp [isExpiredCode])]
  simp [utf8DecodeStr_utf8EncodeStr]

/-- C5 is violated by the code at this input (the implementation's `list`
signature does not match the `KVNamespace` interface it is cast to in
`loadNodeEnv`): with the store holding the key `"abc"`, a caller invoking
`list({prefix: "a"})` through the interface gets an empty key list,
because the options object lands in the implementation's `prefix` string
parameter and is coerced to `"[object Object]"` by `startsWith`; the §4
semantics the interface promises would return the descriptor for
`"abc"`. -/
theorem kvnamespace_list_options_bug :
    ((listViaNamespace 0 (some { pfx := some "a" })
        (put 0 "abc" "v" none (initStore DiskFile.absent))).1 = []) ∧
    (listSpec 0 (some { pfx := some "a" })
        (put 0 "abc" "v" none (initStore DiskFile.absent)) = [{ name := "abc" }]) := by
  constructor
  · decide
  · decide

end LocalKV
